import Mathlib

/-!
Verification of QubeDB's sharded, replicated, multi-model storage engine.

This file shallowly embeds the Rust code of `qubedb-core` (the modules
`cluster/replication.rs`, `cluster/sharding.rs`, `cluster/mod.rs`,
`storage.rs`, `index.rs`, `types.rs`, `error.rs`) as executable Lean
definitions and proves properties of the embedded operations.

Modelling conventions:
- `u64`/`u32`/`usize` values are `Nat`, with `% 2 ^ 64` / `% 2 ^ 32`
  applied exactly where the Rust code casts or where overflow can occur.
- `HashMap<K, V>` is modelled as an association list `List (K × V)`
  (insertion replaces the binding of an existing key), except the storage
  engine's byte map, which is modelled as a function `String → Option _`
  because no claim iterates over it.
- Fallible operations return `Except QubeError _`; a Rust panic
  (e.g. `%` by zero) is modelled as `Option.none` in the result type.
- `f32`/`f64` values are represented by their IEEE-754 bit patterns
  (`Nat`); `bincode` round-trips bit patterns exactly.
- Operations whose Rust return type is `QubeResult<()>` and that can
  only ever return `Ok(())` are modelled as returning just the new state,
  unless a claim is about the returned value.
-/

namespace QubeDB

/-! ### Association-list model of `std::collections::HashMap` -/

/-- Lookup in an association list (model of `HashMap::get`). -/
def alistLookup {κ α : Type} [DecidableEq κ] : List (κ × α) → κ → Option α
  | [], _ => none
  | (k, v) :: t, key => if k = key then some v else alistLookup t key

/-- Insert into an association list, replacing an existing binding
(model of `HashMap::insert`). -/
def alistInsert {κ α : Type} [DecidableEq κ] : List (κ × α) → κ → α → List (κ × α)
  | [], key, val => [(key, val)]
  | (k, v) :: t, key, val =>
      if k = key then (k, val) :: t else (k, v) :: alistInsert t key val

/-- Rewrite every stored value in place from its key and old value (model
of a `for (k, v) in map.iter_mut()` loop that reassigns `*v`). -/
def alistMapWithKey {κ α β : Type} (g : κ → α → β) (l : List (κ × α)) : List (κ × β) :=
  l.map fun p => (p.1, g p.1 p.2)

/-- Replace the value stored at a key, leaving the list unchanged when the
key is absent (model of mutating through `HashMap::get_mut`). -/
def alistUpdate {κ α : Type} [DecidableEq κ] : List (κ × α) → κ → α → List (κ × α)
  | [], _, _ => []
  | (k, v) :: t, key, nv =>
      if k = key then (k, nv) :: t else (k, v) :: alistUpdate t key nv

/-! ### Ascending sort of a list of naturals (model of `Vec::<u64>::sort`) -/

/-- Insert into an ascending-sorted list. -/
def sortedInsertNat (x : Nat) : List Nat → List Nat
  | [] => [x]
  | y :: ys => if x ≤ y then x :: y :: ys else y :: sortedInsertNat x ys

/-- Ascending insertion sort, the model of `indices.sort()`. -/
def sortNat : List Nat → List Nat
  | [] => []
  | x :: xs => sortedInsertNat x (sortNat xs)

/-! ### `error.rs`: error taxonomy -/

/-- Embeds the `QubeError` enum of `error.rs`; every variant carries its
message string (the `Io` variant's `std::io::Error` is represented by its
display string). -/
inductive QubeError
  | Storage (msg : String)
  | QueryParse (msg : String)
  | Network (msg : String)
  | Index (msg : String)
  | VectorSearch (msg : String)
  | Config (msg : String)
  | Io (msg : String)
  | Serialization (msg : String)
  | DatabaseNotFound (msg : String)
  | TableNotFound (msg : String)
  | ColumnNotFound (msg : String)
  | ConstraintViolation (msg : String)
  | Transaction (msg : String)
deriving DecidableEq

/-- `QubeResult<T>` from `error.rs`. -/
abbrev QubeResult (α : Type) : Type := Except QubeError α

/-! ### `types.rs`: values and rows -/

/-- Model of `serde_json::Value`; numbers are represented by the bit
pattern of the `f64` they parse to. -/
inductive JsonValue
  | null
  | bool (b : Bool)
  | num (bits : Nat)
  | str (s : String)
  | arr (items : List JsonValue)
  | obj (fields : List (String × JsonValue))

abbrev Str : Type := String

/-- Embeds the `Value` enum of `types.rs`. Signed integer variants carry
`Int`, unsigned ones `Nat`; `f32`/`f64` are represented by their IEEE-754
bit patterns. -/
inductive Value
  | Null
  | Int8 (v : Int)
  | Int16 (v : Int)
  | Int32 (v : Int)
  | Int64 (v : Int)
  | UInt8 (v : Nat)
  | UInt16 (v : Nat)
  | UInt32 (v : Nat)
  | UInt64 (v : Nat)
  | Float32 (bits : Nat)
  | Float64 (bits : Nat)
  | String (s : Str)
  | Binary (bytes : List Nat)
  | Json (j : JsonValue)
  | Vector (bits : List Nat)
  | Boolean (b : Bool)
  | Timestamp (t : Int)

/-- `Row` from `types.rs` (`HashMap<String, Value>`), as an association list. -/
abbrev Row : Type := List (Str × Value)

/-! ### `cluster/replication.rs`: the replicated log -/

/-- Embeds the `ReplicationCommand` enum. -/
inductive ReplicationCommand
  | Insert (table : Str) (key : Str) (row : Row)
  | Update (table : Str) (key : Str) (row : Row)
  | Delete (table : Str) (key : Str)
  | CreateTable (name : Str) (schema : List (Str × Str))
  | DropTable (name : Str)

/-- Embeds `LogEntry` (`index`, `term`, `timestamp` are `u64`). -/
structure LogEntry where
  index : Nat
  term : Nat
  command : ReplicationCommand
  timestamp : Nat

/-- Embeds `ReplicationManager`. -/
structure ReplicationManager where
  log : List LogEntry
  commit_index : Nat
  last_applied : Nat
  next_index : List (String × Nat)
  match_index : List (String × Nat)

/-- `ReplicationManager::new`. -/
def ReplicationManager.new : ReplicationManager :=
  { log := [], commit_index := 0, last_applied := 0, next_index := [], match_index := [] }

/-- `ReplicationManager::append_entry`: pushes the entry onto the log.
The Rust function always returns `Ok(())`, so only the new state is
returned here. -/
def ReplicationManager.append_entry (m : ReplicationManager) (entry : LogEntry) :
    ReplicationManager :=
  { m with log := m.log ++ [entry] }

/-- `ReplicationManager::get_entry`: `self.log.get(index as usize)` —
note this indexes by *position* in the vector. -/
def ReplicationManager.get_entry (m : ReplicationManager) (index : Nat) : Option LogEntry :=
  m.log.get? index

/-- `ReplicationManager::get_last_log_index`: `0` on an empty log,
`log.len() - 1` otherwise. -/
def ReplicationManager.get_last_log_index (m : ReplicationManager) : Nat :=
  if m.log.isEmpty then 0 else m.log.length - 1

/-- `ReplicationManager::get_last_log_term`. -/
def ReplicationManager.get_last_log_term (m : ReplicationManager) : Nat :=
  if m.log.isEmpty then 0 else (m.log.getLast?.map LogEntry.term).getD 0

/-- `ReplicationManager::commit_to_index`: raises `commit_index` to `index`
when `index > commit_index`; always returns `Ok(())`. -/
def ReplicationManager.commit_to_index (m : ReplicationManager) (index : Nat) :
    ReplicationManager :=
  if m.commit_index < index then { m with commit_index := index } else m

/-- The loop body of `ReplicationManager::apply_committed_entries`, with the
iteration count made explicit: each iteration increments `last_applied` and
passes `get_entry(last_applied)` (when present) to `apply_entry`. The list
returned is the sequence of entries given to `apply_entry`, which is the
loop's only observable effect (`apply_entry` only prints and returns
`Ok(())`). -/
def ReplicationManager.apply_go : Nat → ReplicationManager → ReplicationManager × List LogEntry
  | 0, m => (m, [])
  | fuel + 1, m =>
      if m.last_applied < m.commit_index then
        let m1 : ReplicationManager := { m with last_applied := m.last_applied + 1 }
        let applied := (m1.get_entry m1.last_applied).toList
        let r := ReplicationManager.apply_go fuel m1
        (r.1, applied ++ r.2)
      else (m, [])

/-- `ReplicationManager::apply_committed_entries`: runs the
`while last_applied < commit_index` loop (which performs exactly
`commit_index - last_applied` iterations). -/
def ReplicationManager.apply_committed_entries (m : ReplicationManager) :
    ReplicationManager × List LogEntry :=
  ReplicationManager.apply_go (m.commit_index - m.last_applied) m

/-- `ReplicationManager::update_commit_index`: sorts the `match_index`
values of the followers that have responded (the leader's own last log
index is not among them), takes the element at position `len / 2`, and
raises `commit_index` to it when larger. -/
def ReplicationManager.update_commit_index (m : ReplicationManager) : ReplicationManager :=
  let indices := sortNat (m.match_index.map Prod.snd)
  if indices.isEmpty then m
  else
    let new_commit := indices.getD (indices.length / 2) 0
    if m.commit_index < new_commit then { m with commit_index := new_commit } else m

/-- `ReplicationManager::handle_append_entries_response`: on success records
`match_index`/`next_index` for the follower and recomputes the commit
index; on failure decrements the follower's `next_index` when positive.
Always returns `Ok(())`. -/
def ReplicationManager.handle_append_entries_response (m : ReplicationManager)
    (follower_id : String) (success : Bool) (matchIdx : Nat) : ReplicationManager :=
  if success then
    ReplicationManager.update_commit_index
      { m with match_index := alistInsert m.match_index follower_id matchIdx,
               next_index := alistInsert m.next_index follower_id (matchIdx + 1) }
  else
    match alistLookup m.next_index follower_id with
    | some current_next =>
        if 0 < current_next then
          { m with next_index := alistInsert m.next_index follower_id (current_next - 1) }
        else m
    | none => m

/-! ### `storage.rs`: the storage engine

Serialized byte vectors are modelled by the value they encode.
`bincode::serialize` of a `Vec<f32>` is injective and bit-exact, so its
bytes are represented by the list of `f32` bit patterns. `serde_json` is
*not* injective on rows: it writes non-finite `f32`/`f64` values
(`Value::Float32`/`Float64`/`Vector` entries whose exponent field is all
ones — NaN and the infinities) as `null`, and `serde_json::from_slice`
then fails to read that `null` back as a float. The bytes of a stored row
are therefore represented by the row's JSON image (`serializeRow`), in
which every float is either a finite bit pattern (shortest decimal form,
which parses back to the identical bit pattern) or the `null` marker, and
decoding (`deserializeRow`) fails exactly when a `null` marker occurs. -/

/-- A float as it appears in serde_json output: a finite `f32`/`f64`
(whose shortest decimal form parses back to the same bit pattern), or
`null`, which serde_json writes for NaN and the infinities. -/
inductive JsonFloat
  | finite (bits : Nat)
  | null
deriving DecidableEq

/-- serde_json's rendering of an `f32` bit pattern: `null` exactly when
the exponent field (bits 30–23) is all ones (NaN or an infinity). -/
def f32ToJson (bits : Nat) : JsonFloat :=
  if (bits / 2 ^ 23) % 2 ^ 8 = 2 ^ 8 - 1 then JsonFloat.null else JsonFloat.finite bits

/-- serde_json's rendering of an `f64` bit pattern: `null` exactly when
the exponent field (bits 62–52) is all ones. -/
def f64ToJson (bits : Nat) : JsonFloat :=
  if (bits / 2 ^ 52) % 2 ^ 11 = 2 ^ 11 - 1 then JsonFloat.null else JsonFloat.finite bits

/-- The `f32` bit pattern is finite, i.e. serde_json can round-trip it. -/
def f32IsFinite (bits : Nat) : Bool :=
  decide (¬ (bits / 2 ^ 23) % 2 ^ 8 = 2 ^ 8 - 1)

/-- The `f64` bit pattern is finite. -/
def f64IsFinite (bits : Nat) : Bool :=
  decide (¬ (bits / 2 ^ 52) % 2 ^ 11 = 2 ^ 11 - 1)

/-- The JSON image of a `Value` as written by `serde_json::to_vec`: every
variant round-trips exactly except the float payloads, which pass through
`f32ToJson`/`f64ToJson`. -/
inductive JsonValueEnc
  | Null
  | Int8 (v : Int)
  | Int16 (v : Int)
  | Int32 (v : Int)
  | Int64 (v : Int)
  | UInt8 (v : Nat)
  | UInt16 (v : Nat)
  | UInt32 (v : Nat)
  | UInt64 (v : Nat)
  | Float32 (f : JsonFloat)
  | Float64 (f : JsonFloat)
  | String (s : Str)
  | Binary (bytes : List Nat)
  | Json (j : JsonValue)
  | Vector (fs : List JsonFloat)
  | Boolean (b : Bool)
  | Timestamp (t : Int)

/-- `serde_json::to_vec` on one `Value`. -/
def serializeValue : Value → JsonValueEnc
  | Value.Null => JsonValueEnc.Null
  | Value.Int8 v => JsonValueEnc.Int8 v
  | Value.Int16 v => JsonValueEnc.Int16 v
  | Value.Int32 v => JsonValueEnc.Int32 v
  | Value.Int64 v => JsonValueEnc.Int64 v
  | Value.UInt8 v => JsonValueEnc.UInt8 v
  | Value.UInt16 v => JsonValueEnc.UInt16 v
  | Value.UInt32 v => JsonValueEnc.UInt32 v
  | Value.UInt64 v => JsonValueEnc.UInt64 v
  | Value.Float32 bits => JsonValueEnc.Float32 (f32ToJson bits)
  | Value.Float64 bits => JsonValueEnc.Float64 (f64ToJson bits)
  | Value.String s => JsonValueEnc.String s
  | Value.Binary bytes => JsonValueEnc.Binary bytes
  | Value.Json j => JsonValueEnc.Json j
  | Value.Vector bits => JsonValueEnc.Vector (bits.map f32ToJson)
  | Value.Boolean b => JsonValueEnc.Boolean b
  | Value.Timestamp t => JsonValueEnc.Timestamp t

/-- Reading one float back: `null` does not deserialize into a float. -/
def jsonFloatToBits : JsonFloat → Option Nat
  | JsonFloat.finite bits => some bits
  | JsonFloat.null => none

/-- Reading a float array back, failing on any `null` entry. -/
def decodeFloatList : List JsonFloat → Option (List Nat)
  | [] => some []
  | f :: fs =>
      match jsonFloatToBits f, decodeFloatList fs with
      | some b, some bs => some (b :: bs)
      | _, _ => none

/-- `serde_json::from_slice` on one encoded `Value`. -/
def deserializeValue : JsonValueEnc → Option Value
  | JsonValueEnc.Null => some Value.Null
  | JsonValueEnc.Int8 v => some (Value.Int8 v)
  | JsonValueEnc.Int16 v => some (Value.Int16 v)
  | JsonValueEnc.Int32 v => some (Value.Int32 v)
  | JsonValueEnc.Int64 v => some (Value.Int64 v)
  | JsonValueEnc.UInt8 v => some (Value.UInt8 v)
  | JsonValueEnc.UInt16 v => some (Value.UInt16 v)
  | JsonValueEnc.UInt32 v => some (Value.UInt32 v)
  | JsonValueEnc.UInt64 v => some (Value.UInt64 v)
  | JsonValueEnc.Float32 f => (jsonFloatToBits f).map Value.Float32
  | JsonValueEnc.Float64 f => (jsonFloatToBits f).map Value.Float64
  | JsonValueEnc.String s => some (Value.String s)
  | JsonValueEnc.Binary bytes => some (Value.Binary bytes)
  | JsonValueEnc.Json j => some (Value.Json j)
  | JsonValueEnc.Vector fs => (decodeFloatList fs).map Value.Vector
  | JsonValueEnc.Boolean b => some (Value.Boolean b)
  | JsonValueEnc.Timestamp t => some (Value.Timestamp t)

/-- `serde_json::to_vec` of a full row. -/
def serializeRow (r : Row) : List (Str × JsonValueEnc) :=
  r.map fun p => (p.1, serializeValue p.2)

/-- `serde_json::from_slice` of a full row: fails when any value fails. -/
def deserializeRow : List (Str × JsonValueEnc) → Option Row
  | [] => some []
  | (k, e) :: t =>
      match deserializeValue e, deserializeRow t with
      | some v, some r => some ((k, v) :: r)
      | _, _ => none

/-- Every float bit pattern in the value is finite. -/
def valueFinite : Value → Bool
  | Value.Float32 bits => f32IsFinite bits
  | Value.Float64 bits => f64IsFinite bits
  | Value.Vector bits => bits.all f32IsFinite
  | _ => true

/-- Every float bit pattern in the row is finite: exactly the rows on
which serde_json serialization is invertible. -/
def rowFinite (r : Row) : Bool := r.all fun p => valueFinite p.2

/-- A `Vec<u8>` held in `StorageEngine::data`, represented by the value it
encodes. `jsonRow` stands for `serde_json::to_vec` of a `Row` (its JSON
image, see above); `bincodeVec` for `bincode::serialize` of a `Vec<f32>`
(bit patterns, bit-exact). -/
inductive StoredBytes
  | jsonRow (enc : List (Str × JsonValueEnc))
  | bincodeVec (bits : List Nat)

/-- Embeds `StorageEngine`: `data: HashMap<String, Vec<u8>>` as a function
map (no claim iterates over it) plus the `path` string. -/
structure StorageEngine where
  data : String → Option StoredBytes
  path : String

/-- `StorageEngine::new` (the directory creation is an external effect with
no bearing on the data map). -/
def StorageEngine.new (path : String) : StorageEngine :=
  { data := fun _ => none, path := path }

/-- `StorageEngine::put_row`: stores the serialized row at `"{table}:{key}"`.
`serde_json::to_vec` of a `Row` always succeeds (non-finite floats are
written as `null`), so `put_row` returns `Ok(())`. -/
def StorageEngine.put_row (e : StorageEngine) (table key : String) (row : Row) :
    StorageEngine × QubeResult Unit :=
  let db_key := table ++ ":" ++ key
  ({ e with data := fun k =>
      if k = db_key then some (StoredBytes.jsonRow (serializeRow row)) else e.data k },
   Except.ok ())

/-- `StorageEngine::get_row`: absent key is `Ok(None)`; bytes that do not
decode as a row — a stored `null` where a float is expected, or bytes of
the other encoding — give a `Serialization` error. -/
def StorageEngine.get_row (e : StorageEngine) (table key : String) :
    QubeResult (Option Row) :=
  let db_key := table ++ ":" ++ key
  match e.data db_key with
  | some (StoredBytes.jsonRow enc) =>
      match deserializeRow enc with
      | some row => Except.ok (some row)
      | none => Except.error (QubeError.Serialization "Failed to deserialize row")
  | some (StoredBytes.bincodeVec _) =>
      Except.error (QubeError.Serialization "Failed to deserialize row")
  | none => Except.ok none

/-- `StorageEngine::delete_row`: removes the binding at `"{table}:{key}"`
and returns `Ok(())` — the dropped return value of `HashMap::remove` is
discarded, so the result does not indicate whether a record existed. -/
def StorageEngine.delete_row (e : StorageEngine) (table key : String) :
    StorageEngine × QubeResult Unit :=
  let db_key := table ++ ":" ++ key
  ({ e with data := fun k => if k = db_key then none else e.data k }, Except.ok ())

/-- `StorageEngine::put_vector`: stores the bincode-serialized vector at
`"vector:{collection}:{id}"`. -/
def StorageEngine.put_vector (e : StorageEngine) (collection id : String) (vector : List Nat) :
    StorageEngine × QubeResult Unit :=
  let db_key := "vector:" ++ collection ++ ":" ++ id
  ({ e with data := fun k => if k = db_key then some (StoredBytes.bincodeVec vector) else e.data k },
   Except.ok ())

/-- `StorageEngine::get_vector`. -/
def StorageEngine.get_vector (e : StorageEngine) (collection id : String) :
    QubeResult (Option (List Nat)) :=
  let db_key := "vector:" ++ collection ++ ":" ++ id
  match e.data db_key with
  | some (StoredBytes.bincodeVec v) => Except.ok (some v)
  | some _ => Except.error (QubeError.Serialization "Failed to deserialize vector")
  | none => Except.ok none

/-- `StorageEngine::put_graph_node`: stores the serialized properties row at
`"graph:{graph}:node:{node_id}"`. -/
def StorageEngine.put_graph_node (e : StorageEngine) (graph node_id : String)
    (properties : Row) : StorageEngine × QubeResult Unit :=
  let db_key := "graph:" ++ graph ++ ":node:" ++ node_id
  ({ e with data := fun k =>
      if k = db_key then some (StoredBytes.jsonRow (serializeRow properties)) else e.data k },
   Except.ok ())

/-- `StorageEngine::put_graph_edge`: stores the serialized properties row at
`"graph:{graph}:edge:{from}:{to}"`. -/
def StorageEngine.put_graph_edge (e : StorageEngine) (graph fromNode toNode : String)
    (properties : Row) : StorageEngine × QubeResult Unit :=
  let db_key := "graph:" ++ graph ++ ":edge:" ++ fromNode ++ ":" ++ toNode
  ({ e with data := fun k =>
      if k = db_key then some (StoredBytes.jsonRow (serializeRow properties)) else e.data k },
   Except.ok ())

/-! ### `index.rs`: the vector index -/

/-- Embeds `VectorIndex` (`name`, `dimensions`; it holds no vector data —
the storage backend is a TODO in the source). -/
structure VectorIndex where
  name : String
  dimensions : Nat
deriving DecidableEq

/-- `VectorIndex::new`. -/
def VectorIndex.new (name : String) (dimensions : Nat) : VectorIndex :=
  { name := name, dimensions := dimensions }

/-- The message built by `VectorIndex::insert` on a dimension mismatch. -/
def vectorDimensionMismatchMsg (expected got : Nat) : String :=
  "Vector dimension mismatch: expected " ++ toString expected ++ ", got " ++ toString got

/-- The message built by `VectorIndex::search` on a dimension mismatch. -/
def queryDimensionMismatchMsg (expected got : Nat) : String :=
  "Query vector dimension mismatch: expected " ++ toString expected ++ ", got " ++ toString got

/-- `VectorIndex::insert`: rejects a vector whose length differs from the
declared dimension count; otherwise returns `Ok(())` (the actual insertion
is a TODO in the source, so the index state is returned unchanged in both
cases). The vector's `f32` entries are bit patterns. -/
def VectorIndex.insert (idx : VectorIndex) (_id : String) (vector : List Nat) :
    VectorIndex × QubeResult Unit :=
  if vector.length ≠ idx.dimensions then
    (idx, Except.error (QubeError.Index (vectorDimensionMismatchMsg idx.dimensions vector.length)))
  else
    (idx, Except.ok ())

/-- `VectorIndex::search`: rejects a query vector whose length differs from
the declared dimension count; otherwise returns `Ok(vec![])` (the search is
a TODO in the source). Scores are `f32` bit patterns. -/
def VectorIndex.search (idx : VectorIndex) (query_vector : List Nat) (_k : Nat) :
    QubeResult (List (String × Nat)) :=
  if query_vector.length ≠ idx.dimensions then
    Except.error (QubeError.Index (queryDimensionMismatchMsg idx.dimensions query_vector.length))
  else
    Except.ok []

/-! ### `DefaultHasher`: SipHash-1-3 with zero keys

`std::collections::hash_map::DefaultHasher::new()` is SipHash-1-3 keyed
with `(0, 0)`. `str::hash` feeds the UTF-8 bytes of the string followed by
a single `0xFF` byte. All 64-bit words are `Nat` reduced `% 2 ^ 64`. -/

def add64 (a b : Nat) : Nat := (a + b) % 2 ^ 64

def xor64 (a b : Nat) : Nat := Nat.xor a b

def rotl64 (x r : Nat) : Nat := ((x <<< r) % 2 ^ 64) ||| (x >>> (64 - r))

/-- The four 64-bit words of the SipHash internal state. -/
structure SipState where
  v0 : Nat
  v1 : Nat
  v2 : Nat
  v3 : Nat

/-- One SipHash round. -/
def sipRound (s : SipState) : SipState :=
  let v0 := add64 s.v0 s.v1
  let v1 := rotl64 s.v1 13
  let v1 := xor64 v1 v0
  let v0 := rotl64 v0 32
  let v2 := add64 s.v2 s.v3
  let v3 := rotl64 s.v3 16
  let v3 := xor64 v3 v2
  let v0 := add64 v0 v3
  let v3 := rotl64 v3 21
  let v3 := xor64 v3 v0
  let v2 := add64 v2 v1
  let v1 := rotl64 v1 17
  let v1 := xor64 v1 v2
  let v2 := rotl64 v2 32
  ⟨v0, v1, v2, v3⟩

/-- Little-endian value of a byte list (first byte least significant). -/
def le64 (bs : List Nat) : Nat := bs.foldr (fun b acc => acc * 256 + b) 0

/-- Absorb one message word (SipHash-1-3: a single compression round). -/
def sipCompress (s : SipState) (m : Nat) : SipState :=
  let s1 := sipRound { s with v3 := xor64 s.v3 m }
  { s1 with v0 := xor64 s1.v0 m }

/-- Absorb all full 8-byte words, returning the trailing bytes. -/
def sipLoop : SipState → List Nat → SipState × List Nat
  | s, b0 :: b1 :: b2 :: b3 :: b4 :: b5 :: b6 :: b7 :: rest =>
      sipLoop (sipCompress s (le64 [b0, b1, b2, b3, b4, b5, b6, b7])) rest
  | s, rest => (s, rest)

/-- SipHash-1-3 of a byte list with keys `k0`, `k1`. -/
def sipHash13 (k0 k1 : Nat) (msg : List Nat) : Nat :=
  let s0 : SipState :=
    ⟨xor64 k0 0x736f6d6570736575, xor64 k1 0x646f72616e646f6d,
     xor64 k0 0x6c7967656e657261, xor64 k1 0x7465646279746573⟩
  let r := sipLoop s0 msg
  let finalWord := ((msg.length % 256) <<< 56) ||| le64 r.2
  let s2 := sipCompress r.1 finalWord
  let s3 : SipState := { s2 with v2 := xor64 s2.v2 0xff }
  let s4 := sipRound (sipRound (sipRound s3))
  xor64 (xor64 s4.v0 s4.v1) (xor64 s4.v2 s4.v3)

/-- UTF-8 encoding of one character. -/
def utf8EncodeChar (c : Char) : List Nat :=
  let n := c.toNat
  if n < 0x80 then [n]
  else if n < 0x800 then [0xC0 ||| (n >>> 6), 0x80 ||| (n &&& 0x3F)]
  else if n < 0x10000 then
    [0xE0 ||| (n >>> 12), 0x80 ||| ((n >>> 6) &&& 0x3F), 0x80 ||| (n &&& 0x3F)]
  else
    [0xF0 ||| (n >>> 18), 0x80 ||| ((n >>> 12) &&& 0x3F),
     0x80 ||| ((n >>> 6) &&& 0x3F), 0x80 ||| (n &&& 0x3F)]

/-- UTF-8 bytes of a string (`str::as_bytes`). -/
def utf8Bytes (s : String) : List Nat :=
  s.data.foldr (fun c acc => utf8EncodeChar c ++ acc) []

/-- `DefaultHasher` applied to a `&str` as `str::hash` does: hash the UTF-8
bytes followed by the `0xFF` terminator byte. -/
def defaultHashStr (s : String) : Nat :=
  sipHash13 0 0 (utf8Bytes s ++ [0xff])

/-! ### `cluster/sharding.rs`: the shard manager -/

/-- Embeds the `ShardingStrategy` enum. -/
inductive ShardingStrategy
  | Hash
  | Range
  | Consistent
  | Directory
deriving DecidableEq

/-- Embeds `ShardKey` (`hash` is `u64`, `shard_id` is `u32`). -/
structure ShardKey where
  table : String
  key : String
  hash : Nat
  shard_id : Nat
deriving DecidableEq

/-- Embeds the `ShardStatus` enum of `cluster/sharding.rs`. -/
inductive ShardStatus
  | Active
  | Migrating
  | Recovering
  | Failed
  | ReadOnly
deriving DecidableEq

/-- Embeds `ShardInfo`. -/
structure ShardInfo where
  id : Nat
  range_start : String
  range_end : String
  nodes : List String
  leader : Option String
  status : ShardStatus
  size_bytes : Nat
  record_count : Nat
deriving DecidableEq

/-- Embeds `ShardManager` (`shard_count` is `u32`, `replication_factor`
is `usize`). -/
structure ShardManager where
  strategy : ShardingStrategy
  shards : List (Nat × ShardInfo)
  shard_count : Nat
  replication_factor : Nat

/-- Lowercase hex rendering of `n`, left-padded with zeros to `width`
digits (Rust's `format!("{:016x}", n)` / `format!("{:08x}", n)`). -/
def formatHexPad (width n : Nat) : String :=
  let ds := Nat.toDigits 16 n
  String.mk (List.replicate (width - ds.length) '0' ++ ds)

/-- `ShardManager::calculate_range_start` (only reached with
`shard_count ≥ 1`, since it is called from the per-shard loop). -/
def ShardManager.calculate_range_start (m : ShardManager) (shard_id : Nat) : String :=
  match m.strategy with
  | ShardingStrategy.Hash =>
      let range_size := (2 ^ 64 - 1) / m.shard_count
      formatHexPad 16 (shard_id * range_size)
  | ShardingStrategy.Range =>
      formatHexPad 8 (shard_id * ((2 ^ 32 - 1) / m.shard_count))
  | _ => "shard_" ++ toString shard_id

/-- `ShardManager::calculate_range_end`. -/
def ShardManager.calculate_range_end (m : ShardManager) (shard_id : Nat) : String :=
  match m.strategy with
  | ShardingStrategy.Hash =>
      let range_size := (2 ^ 64 - 1) / m.shard_count
      formatHexPad 16 ((shard_id + 1) * range_size - 1)
  | ShardingStrategy.Range =>
      formatHexPad 8 ((shard_id + 1) * ((2 ^ 32 - 1) / m.shard_count) - 1)
  | _ => "shard_" ++ toString (shard_id + 1)

/-- `ShardManager::initialize_shards`: inserts shards `0, …, shard_count-1`
with their ranges, no nodes, no leader, `Active` status. -/
def ShardManager.init_shards (m : ShardManager) : ShardManager :=
  { m with shards := (List.range m.shard_count).map fun i =>
      (i, { id := i,
            range_start := m.calculate_range_start i,
            range_end := m.calculate_range_end i,
            nodes := [],
            leader := none,
            status := ShardStatus.Active,
            size_bytes := 0,
            record_count := 0 }) }

/-- `ShardManager::new`: builds the manager and initializes its shards. -/
def ShardManager.new (strategy : ShardingStrategy) (shard_count replication_factor : Nat) :
    ShardManager :=
  ShardManager.init_shards
    { strategy := strategy, shards := [], shard_count := shard_count,
      replication_factor := replication_factor }

/-- `ShardManager::hash_key`: `DefaultHasher` over the key (a pure function
of the key alone). -/
def ShardManager.hash_key (_self : ShardManager) (key : String) : Nat :=
  defaultHashStr key

/-- `ShardManager::consistent_hash` (the source's "simplified consistent
hashing" is plain modulo); `none` models the Rust panic on `% 0`. -/
def ShardManager.consistent_hash (m : ShardManager) (hash : Nat) : Option Nat :=
  if m.shard_count = 0 then none else some (hash % m.shard_count)

/-- `ShardManager::calculate_shard_id`: every strategy reduces the hash
modulo `shard_count`; `none` models the Rust panic on `% 0`. -/
def ShardManager.calculate_shard_id (m : ShardManager) (hash : Nat) : Option Nat :=
  match m.strategy with
  | ShardingStrategy.Hash =>
      if m.shard_count = 0 then none else some (hash % m.shard_count)
  | ShardingStrategy.Consistent => m.consistent_hash hash
  | _ => if m.shard_count = 0 then none else some (hash % m.shard_count)

/-- `ShardManager::get_shard_for_key`: hashes the key and derives the shard
id; `some` corresponds to the Rust `Ok`, `none` to the `% 0` panic. -/
def ShardManager.get_shard_for_key (m : ShardManager) (table key : String) : Option ShardKey :=
  let hash := m.hash_key key
  (m.calculate_shard_id hash).map fun shard_id =>
    { table := table, key := key, hash := hash, shard_id := shard_id }

/-- `ShardManager::get_shard`. -/
def ShardManager.get_shard (m : ShardManager) (shard_id : Nat) : Option ShardInfo :=
  alistLookup m.shards shard_id

/-- `ShardManager::assign_nodes_to_shards`: for every shard, assigns
`replication_factor` nodes round-robin starting at offset `shard_id`
(`nodes[(shard_id + i) % nodes.len()]`, the `u32` sum wrapping `% 2 ^ 32`),
and makes the first assigned node the leader. `none` models the Rust panic
on `% 0` when `nodes` is empty yet at least one index is computed.
`assignReplicaSet` is the inner `for i in 0..replication_factor` loop. -/
def assignReplicaSet (replication_factor : Nat) (nodes : List String) (shard_id : Nat) :
    List String :=
  (List.range replication_factor).map fun i =>
    nodes.getD (((shard_id + i) % 2 ^ 32) % nodes.length) ""

/-- See `assignReplicaSet` above: the outer loop of
`ShardManager::assign_nodes_to_shards` over all shards. -/
def ShardManager.assign_nodes_to_shards (m : ShardManager) (nodes : List String) :
    Option ShardManager :=
  if nodes.isEmpty ∧ 0 < m.replication_factor ∧ ¬ m.shards.isEmpty then none
  else some { m with shards := alistMapWithKey (fun shard_id shard =>
    let assigned := assignReplicaSet m.replication_factor nodes shard_id
    { shard with nodes := assigned, leader := assigned.head? }) m.shards }

/-- The state of `ShardManager::migrate_shard` after its first three
mutations (status set to `Migrating`, nodes replaced, leader set to the
first new node) and before the final `status = Active` assignment. -/
def ShardManager.migrate_shard_mid (m : ShardManager) (shard_id : Nat)
    (new_nodes : List String) : ShardManager :=
  match alistLookup m.shards shard_id with
  | some shard =>
      let updated : ShardInfo :=
        { shard with status := ShardStatus.Migrating, nodes := new_nodes,
                     leader := new_nodes.head? }
      { m with shards := alistUpdate m.shards shard_id updated }
  | none => m

/-- `ShardManager::migrate_shard`: on an existing shard, replaces its nodes,
sets its leader to the first new node, and moves its status through
`Migrating` back to `Active` before returning; an unknown shard id leaves
the manager unchanged. Always returns `Ok(())`. -/
def ShardManager.migrate_shard (m : ShardManager) (shard_id : Nat)
    (new_nodes : List String) : ShardManager :=
  match alistLookup m.shards shard_id with
  | some shard =>
      let updated : ShardInfo :=
        { shard with status := ShardStatus.Active, nodes := new_nodes,
                     leader := new_nodes.head? }
      { m with shards := alistUpdate m.shards shard_id updated }
  | none => m

/-! ### `cluster/mod.rs`: the cluster manager -/

namespace Cluster

/-- Embeds the `NodeRole` enum. -/
inductive NodeRole
  | Leader
  | Follower
  | Candidate
  | Observer
deriving DecidableEq

/-- Embeds the `NodeStatus` enum. -/
inductive NodeStatus
  | Healthy
  | Unhealthy
  | Unknown
  | Joining
  | Leaving
deriving DecidableEq

/-- Embeds `Peer` (`SocketAddr` as its display string, `last_seen` as `u64`). -/
structure Peer where
  id : String
  address : String
  role : NodeRole
  status : NodeStatus
  last_seen : Nat
deriving DecidableEq

/-- Embeds `ClusterConfig` (`bind_address` as its display string;
`shard_count` and `replication_factor` are `usize`). -/
structure ClusterConfig where
  node_id : String
  bind_address : String
  peers : List Peer
  replication_factor : Nat
  shard_count : Nat
  enable_auto_discovery : Bool
  heartbeat_interval : Nat
  election_timeout : Nat

/-- Embeds the `ShardStatus` enum of `cluster/mod.rs`. -/
inductive ShardStatus
  | Active
  | Migrating
  | Recovering
  | Failed
deriving DecidableEq

/-- Embeds the `Shard` struct of `cluster/mod.rs` (`id` is `u32`). -/
structure Shard where
  id : Nat
  range_start : String
  range_end : String
  replicas : List String
  leader : Option String
  status : ShardStatus
deriving DecidableEq

/-- Embeds `ClusterManager`. -/
structure ClusterManager where
  config : ClusterConfig
  peers : List (String × Peer)
  shards : List (Nat × Shard)
  current_role : NodeRole
  leader_id : Option String
  term : Nat

/-- `ClusterManager::new`: empty peer and shard maps (the shard map is only
populated by `initialize_shards`, called from `start`). -/
def ClusterManager.new (config : ClusterConfig) : ClusterManager :=
  { config := config, peers := [], shards := [], current_role := NodeRole.Follower,
    leader_id := none, term := 0 }

/-- `ClusterManager::initialize_shards`: inserts shards `0, …,
shard_count-1` keyed by `i as u32`, with `{:08x}` ranges computed from
`u32::MAX / (shard_count as u32)`. `none` models the Rust panic when
`shard_count as u32` is zero while the loop body runs (the range division
by zero). -/
def ClusterManager.init_shards (cm : ClusterManager) : Option ClusterManager :=
  if cm.config.shard_count ≠ 0 ∧ cm.config.shard_count % 2 ^ 32 = 0 then none
  else some { cm with shards := (List.range cm.config.shard_count).map fun i =>
    (i % 2 ^ 32,
     { id := i % 2 ^ 32,
       range_start := formatHexPad 8 (i * ((2 ^ 32 - 1) / (cm.config.shard_count % 2 ^ 32))),
       range_end := formatHexPad 8 ((i + 1) * ((2 ^ 32 - 1) / (cm.config.shard_count % 2 ^ 32))),
       replicas := [],
       leader := none,
       status := ShardStatus.Active }) }

/-- `ClusterManager::hash_key`: `DefaultHasher::finish() as u32`. -/
def ClusterManager.hash_key (_self : ClusterManager) (key : String) : Nat :=
  defaultHashStr key % 2 ^ 32

/-- `ClusterManager::get_shard_for_key`: `hash % (shard_count as u32)` then
a map lookup. The outer `none` models the Rust panic on `% 0`; the inner
option is the `Option<&Shard>` the Rust function returns. -/
def ClusterManager.get_shard_for_key (cm : ClusterManager) (key : String) :
    Option (Option Shard) :=
  if cm.config.shard_count % 2 ^ 32 = 0 then none
  else some (alistLookup cm.shards (cm.hash_key key % (cm.config.shard_count % 2 ^ 32)))

/-- `ClusterManager::add_peer`. -/
def ClusterManager.add_peer (cm : ClusterManager) (peer : Peer) : ClusterManager :=
  { cm with peers := alistInsert cm.peers peer.id peer }

/-- `ClusterManager::remove_peer` (removal from the association list). -/
def ClusterManager.remove_peer (cm : ClusterManager) (peer_id : String) : ClusterManager :=
  { cm with peers := cm.peers.filter fun p => p.1 ≠ peer_id }

end Cluster

/-! ### Quorum-presence vocabulary for the replication claims

An index is "present" on a follower's log when it is at most the
`match_index` recorded for that follower (the spec's own presence notion:
"`commit_index` only advances to an index that is present (via
match_index) on a majority of the replica set"); a follower with no
recorded response holds nothing beyond index 0. The leader's log holds
every index up to the largest `LogEntry.index` it has appended. -/

/-- Largest `index` field appearing in the leader's log (0 when empty). -/
def maxLogIndex (m : ReplicationManager) : Nat :=
  m.log.foldr (fun e acc => max e.index acc) 0

/-- The `match_index` recorded for a follower, 0 when it never responded. -/
def matchIndexOf (m : ReplicationManager) (follower : String) : Nat :=
  (alistLookup m.match_index follower).getD 0

/-- Number of members of the replica set (the listed followers plus the
leader) whose log holds index `i`. -/
def holdersCount (m : ReplicationManager) (followers : List String) (i : Nat) : Nat :=
  (followers.filter fun f => decide (i ≤ matchIndexOf m f)).length +
    (if i ≤ maxLogIndex m then 1 else 0)

/-- Index `i` is present on the logs of a strict majority of the replica
set formed by `followers` and the leader. -/
def presentOnMajority (m : ReplicationManager) (followers : List String) (i : Nat) : Prop :=
  followers.length + 1 < 2 * holdersCount m followers i

instance (m : ReplicationManager) (followers : List String) (i : Nat) :
    Decidable (presentOnMajority m followers i) := by
  unfold presentOnMajority
  infer_instance

/-! ### Concrete replication runs used by the C1 and C2 evidence -/

/-- A log entry with the given 1-based index (entry payloads are irrelevant
to the replication claims). -/
def entryWithIndex (i : Nat) : LogEntry :=
  { index := i, term := 1, command := ReplicationCommand.DropTable "t", timestamp := 0 }

/-- A leader that appended entries with indices 1, 2, 3, 4, 5. -/
def leaderFive : ReplicationManager :=
  (((((ReplicationManager.new.append_entry (entryWithIndex 1)).append_entry
      (entryWithIndex 2)).append_entry (entryWithIndex 3)).append_entry
      (entryWithIndex 4)).append_entry (entryWithIndex 5))

/-- `leaderFive` after a single successful `AppendEntries` response, from
follower `"f1"` with `match_index = 5`. -/
def respondedOne : ReplicationManager :=
  leaderFive.handle_append_entries_response "f1" true 5

/-- The four-follower replica set of the C1 scenario. -/
def fourFollowers : List String := ["f1", "f2", "f3", "f4"]

/-- First entry of the two-entry log of the C2 scenario (index 1). -/
def entryOne : LogEntry := entryWithIndex 1

/-- Second entry of the two-entry log of the C2 scenario (index 2). -/
def entryTwo : LogEntry := entryWithIndex 2

/-- A replication manager whose log holds exactly the entries with indices
1 and 2 (numbered consecutively from 1, as the spec's `LogEntry` contract
requires) and whose `commit_index` was raised to 2. -/
def twoCommitted : ReplicationManager :=
  ((ReplicationManager.new.append_entry entryOne).append_entry entryTwo).commit_to_index 2

/-- A one-column row used by the C4 storage counterexample. -/
def rowOne : Row := [("id", Value.Int32 1)]

/-- A row holding a quiet-NaN `f32` (bit pattern `0x7FC00000`), used by
the C5 counterexample. -/
def rowNan : Row := [("x", Value.Float32 0x7FC00000)]

/-- A row of finite values (an `Int32` and the bits of `1.0f32`), used by
the C5 witness. -/
def rowFin : Row := [("id", Value.Int32 7), ("score", Value.Float32 1065353216)]

/-! ### Supporting lemmas -/

theorem alistInsert_ne_nil {κ α : Type} [DecidableEq κ] (l : List (κ × α)) (k : κ) (v : α) :
    alistInsert l k v ≠ [] := by
  cases l with
  | nil => simp [alistInsert]
  | cons h t =>
      obtain ⟨k0, v0⟩ := h
      simp only [alistInsert]
      split <;> simp

theorem alistLookup_update_self {κ α : Type} [DecidableEq κ]
    (l : List (κ × α)) (k : κ) (v0 v : α) (h : alistLookup l k = some v0) :
    alistLookup (alistUpdate l k v) k = some v := by
  induction l with
  | nil => simp [alistLookup] at h
  | cons hd t ih =>
      obtain ⟨k0, w⟩ := hd
      by_cases hk : k0 = k
      · simp [alistUpdate, alistLookup, hk]
      · simp only [alistLookup, alistUpdate, if_neg hk] at h ⊢
        exact ih h

theorem alistLookup_update_ne {κ α : Type} [DecidableEq κ]
    (l : List (κ × α)) (k k' : κ) (v : α) (h : k' ≠ k) :
    alistLookup (alistUpdate l k v) k' = alistLookup l k' := by
  induction l with
  | nil => simp [alistUpdate]
  | cons hd t ih =>
      obtain ⟨k0, w⟩ := hd
      by_cases hk : k0 = k
      · subst hk
        have hne : ¬ k0 = k' := fun hh => h hh.symm
        simp [alistUpdate, alistLookup, hne]
      · simp only [alistUpdate, if_neg hk, alistLookup]
        split <;> simp [ih]

theorem alistLookup_append {κ α : Type} [DecidableEq κ]
    (l1 l2 : List (κ × α)) (k : κ) :
    alistLookup (l1 ++ l2) k =
      (alistLookup l1 k).elim (alistLookup l2 k) some := by
  induction l1 with
  | nil => simp [alistLookup]
  | cons hd t ih =>
      obtain ⟨k0, w⟩ := hd
      simp only [List.cons_append, alistLookup]
      split <;> simp [ih]

theorem alistLookup_range_map {α : Type} (f : Nat → α) (n j : Nat) :
    alistLookup ((List.range n).map fun i => (i, f i)) j =
      if j < n then some (f j) else none := by
  induction n with
  | zero => simp [alistLookup]
  | succ n ih =>
      rw [List.range_succ, List.map_append, alistLookup_append, ih]
      by_cases hj : j < n
      · simp [hj, Nat.lt_succ_of_lt hj]
      · by_cases hjn : j = n
        · simp [hjn, alistLookup]
        · have h1 : ¬ j < n + 1 := by omega
          have h2 : ¬ n = j := by omega
          simp [hj, hjn, h1, h2, alistLookup]

theorem sortedInsertNat_ne_nil (x : Nat) (l : List Nat) : sortedInsertNat x l ≠ [] := by
  cases l with
  | nil => simp [sortedInsertNat]
  | cons y ys =>
      simp only [sortedInsertNat]
      split <;> simp

theorem sortNat_ne_nil {l : List Nat} (h : l ≠ []) : sortNat l ≠ [] := by
  cases l with
  | nil => exact absurd rfl h
  | cons x xs => simpa [sortNat] using sortedInsertNat_ne_nil x (sortNat xs)

theorem holdersCount_antitone (m : ReplicationManager) (followers : List String)
    {i j : Nat} (hij : i ≤ j) :
    holdersCount m followers j ≤ holdersCount m followers i := by
  have hl : (if j ≤ maxLogIndex m then 1 else 0) ≤ (if i ≤ maxLogIndex m then 1 else 0) := by
    split_ifs <;> omega
  induction followers with
  | nil =>
      simp only [holdersCount, List.filter_nil, List.length_nil, Nat.zero_add]
      omega
  | cons f t ih =>
      simp only [holdersCount, List.filter_cons, decide_eq_true_eq] at ih ⊢
      by_cases hj : j ≤ matchIndexOf m f
      · have hi : i ≤ matchIndexOf m f := le_trans hij hj
        simp only [if_pos hj, if_pos hi, List.length_cons]
        omega
      · by_cases hi : i ≤ matchIndexOf m f
        · simp only [if_neg hj, if_pos hi, List.length_cons]
          omega
        · simp only [if_neg hj, if_neg hi]
          omega

theorem presentOnMajority_antitone (m : ReplicationManager) (followers : List String)
    {i j : Nat} (hij : i ≤ j) (h : presentOnMajority m followers j) :
    presentOnMajority m followers i := by
  have := holdersCount_antitone m followers hij
  unfold presentOnMajority at h ⊢
  omega

theorem decodeFloatList_map_f32ToJson (bs : List Nat) (h : bs.all f32IsFinite = true) :
    decodeFloatList (bs.map f32ToJson) = some bs := by
  induction bs with
  | nil => rfl
  | cons b t ih =>
      rw [List.all_cons, Bool.and_eq_true] at h
      have hb : ¬ (b / 2 ^ 23) % 2 ^ 8 = 2 ^ 8 - 1 := by
        simpa [f32IsFinite] using h.1
      simp only [List.map_cons, decodeFloatList, f32ToJson, if_neg hb, jsonFloatToBits,
        ih h.2]

theorem deserializeValue_serializeValue (v : Value) (h : valueFinite v = true) :
    deserializeValue (serializeValue v) = some v := by
  cases v with
  | Float32 bits =>
      have hb : ¬ (bits / 2 ^ 23) % 2 ^ 8 = 2 ^ 8 - 1 := by
        simpa [valueFinite, f32IsFinite] using h
      simp only [serializeValue, deserializeValue, f32ToJson, if_neg hb, jsonFloatToBits,
        Option.map_some']
  | Float64 bits =>
      have hb : ¬ (bits / 2 ^ 52) % 2 ^ 11 = 2 ^ 11 - 1 := by
        simpa [valueFinite, f64IsFinite] using h
      simp only [serializeValue, deserializeValue, f64ToJson, if_neg hb, jsonFloatToBits,
        Option.map_some']
  | Vector bits =>
      have hb : bits.all f32IsFinite = true := by simpa [valueFinite] using h
      simp only [serializeValue, deserializeValue, decodeFloatList_map_f32ToJson bits hb,
        Option.map_some']
  | Null => rfl
  | Int8 w => rfl
  | Int16 w => rfl
  | Int32 w => rfl
  | Int64 w => rfl
  | UInt8 w => rfl
  | UInt16 w => rfl
  | UInt32 w => rfl
  | UInt64 w => rfl
  | String s => rfl
  | Binary bytes => rfl
  | Json j => rfl
  | Boolean b => rfl
  | Timestamp t => rfl

theorem deserializeRow_serializeRow (r : Row) (h : rowFinite r = true) :
    deserializeRow (serializeRow r) = some r := by
  induction r with
  | nil => rfl
  | cons p t ih =>
      obtain ⟨k, v⟩ := p
      simp only [rowFinite, List.all_cons, Bool.and_eq_true] at h
      simp only [serializeRow, List.map_cons, deserializeRow,
        deserializeValue_serializeValue v h.1]
      rw [show deserializeRow (t.map fun p => (p.1, serializeValue p.2)) = some t from ih h.2]

theorem alistLookup_mapWithKey {κ α β : Type} [DecidableEq κ] (g : κ → α → β)
    (l : List (κ × α)) (k : κ) :
    alistLookup (alistMapWithKey g l) k = (alistLookup l k).map (g k) := by
  induction l with
  | nil => simp [alistLookup, alistMapWithKey]
  | cons p t ih =>
      obtain ⟨k0, v⟩ := p
      simp only [alistMapWithKey, List.map_cons, alistLookup] at ih ⊢
      by_cases h : k0 = k
      · subst h
        simp
      · simp [h, ih]

theorem update_commit_index_fields (m : ReplicationManager) :
    m.update_commit_index.last_applied = m.last_applied ∧
    m.commit_index ≤ m.update_commit_index.commit_index ∧
    m.update_commit_index.log = m.log ∧
    m.update_commit_index.match_index = m.match_index ∧
    m.update_commit_index.next_index = m.next_index := by
  simp only [ReplicationManager.update_commit_index]
  split
  · simp
  · split
    · next hlt => exact ⟨rfl, le_of_lt hlt, rfl, rfl, rfl⟩
    · simp

theorem apply_go_fields (fuel : Nat) :
    ∀ m : ReplicationManager, m.commit_index ≤ m.last_applied + fuel →
      (ReplicationManager.apply_go fuel m).1.last_applied
          = max m.last_applied m.commit_index ∧
      (ReplicationManager.apply_go fuel m).1.commit_index = m.commit_index ∧
      (ReplicationManager.apply_go fuel m).1.log = m.log := by
  induction fuel with
  | zero =>
      intro m h
      refine ⟨?_, rfl, rfl⟩
      show m.last_applied = max m.last_applied m.commit_index
      omega
  | succ fuel ih =>
      intro m h
      by_cases hlt : m.last_applied < m.commit_index
      · have heq : ReplicationManager.apply_go (fuel + 1) m =
            ((ReplicationManager.apply_go fuel
                { m with last_applied := m.last_applied + 1 }).1,
             (m.get_entry (m.last_applied + 1)).toList ++
               (ReplicationManager.apply_go fuel
                 { m with last_applied := m.last_applied + 1 }).2) := by
          simp only [ReplicationManager.apply_go, if_pos hlt]
          rfl
        obtain ⟨h1, h2, h3⟩ :=
          ih { m with last_applied := m.last_applied + 1 }
            (by show m.commit_index ≤ m.last_applied + 1 + fuel; omega)
        rw [heq]
        refine ⟨?_, ?_, ?_⟩
        · rw [h1]
          show max (m.last_applied + 1) m.commit_index = max m.last_applied m.commit_index
          omega
        · exact h2
        · exact h3
      · have heq : ReplicationManager.apply_go (fuel + 1) m = (m, []) := by
          simp only [ReplicationManager.apply_go, if_neg hlt]
        rw [heq]
        refine ⟨?_, rfl, rfl⟩
        show m.last_applied = max m.last_applied m.commit_index
        omega

/-! ## The claims -/

theorem isEmpty_false_of_ne_nil {α : Type} {l : List α} (h : l ≠ []) : l.isEmpty = false := by
  cases l with
  | nil => exact absurd rfl h
  | cons x xs => rfl

theorem update_commit_index_commit (m : ReplicationManager) (hne : m.match_index ≠ []) :
    m.update_commit_index.commit_index
      = max m.commit_index
          ((sortNat (m.match_index.map Prod.snd)).getD
            ((sortNat (m.match_index.map Prod.snd)).length / 2) 0) := by
  have h0 : (sortNat (m.match_index.map Prod.snd)).isEmpty = false :=
    isEmpty_false_of_ne_nil (sortNat_ne_nil (by simpa using hne))
  simp only [ReplicationManager.update_commit_index, h0, Bool.false_eq_true, if_false]
  split <;> (simp_all; try omega)

/-- C1 counterexample: a leader appends entries 1–5 and receives one
successful response, from follower `"f1"` with honest `match_index = 5`
(no larger than the leader's log). The code immediately advances
`commit_index` to 5, yet in the shard's replica set of four followers and
the leader, index 5 is held only by `"f1"` and the leader — 2 of 5, not a
majority. The recomputation also never consults the leader's own last log
index: it takes the median of the recorded follower match indices alone,
so `commit_index` can exceed every index present on a majority of the
replica set's logs (only index 0 is majority-present here). -/
theorem C1_counterexample_minority_commit :
    respondedOne.commit_index = 5 ∧
    maxLogIndex respondedOne = 5 ∧
    matchIndexOf respondedOne "f1" = 5 ∧
    ¬ presentOnMajority respondedOne fourFollowers 5 ∧
    presentOnMajority respondedOne fourFollowers 0 := by
  exact ⟨by decide, by decide, by decide, by decide, by decide⟩

/-- C1 amended: on a successful response, `handle_append_entries_response`
records the follower's `match_index` and `next_index` and raises
`commit_index` to the element at position `len / 2` of the ascending sort
of the recorded follower match indices — responding followers only; the
leader's own last log index is *not* part of the sorted multiset — when
that exceeds the current value. When only a minority of the replica set
has responded this value need not be held by a majority (see the
counterexample), so the quorum invariant does not hold unconditionally. -/
theorem C1_amended_commit_is_responder_median (m : ReplicationManager) (f : String)
    (mi : Nat) :
    (m.handle_append_entries_response f true mi).commit_index
      = max m.commit_index
          ((sortNat ((alistInsert m.match_index f mi).map Prod.snd)).getD
            ((sortNat ((alistInsert m.match_index f mi).map Prod.snd)).length / 2) 0) ∧
    (m.handle_append_entries_response f true mi).match_index
      = alistInsert m.match_index f mi ∧
    (m.handle_append_entries_response f true mi).next_index
      = alistInsert m.next_index f (mi + 1) ∧
    (m.handle_append_entries_response f true mi).log = m.log ∧
    (m.handle_append_entries_response f true mi).last_applied = m.last_applied := by
  have heq : m.handle_append_entries_response f true mi =
      ReplicationManager.update_commit_index
        { m with match_index := alistInsert m.match_index f mi,
                 next_index := alistInsert m.next_index f (mi + 1) } := by
    simp [ReplicationManager.handle_append_entries_response]
  rw [heq]
  obtain ⟨hla, _, hlog, hmatch, hnext⟩ := update_commit_index_fields
    { m with match_index := alistInsert m.match_index f mi,
             next_index := alistInsert m.next_index f (mi + 1) }
  refine ⟨?_, ?_, ?_, ?_, ?_⟩
  · rw [update_commit_index_commit _ (alistInsert_ne_nil _ _ _)]
  · rw [hmatch]
  · rw [hnext]
  · rw [hlog]
  · rw [hla]

/-- C6: `get_shard_for_key` is a pure function of the partitioning
strategy, the shard count and the key: any two managers agreeing on
strategy and shard count (in particular the same manager on repeated
calls, or two managers built alike, or a manager before and after
node-assignment changes) return identical `ShardKey`s — equal `hash` and
equal `shard_id` — for the same table and key. -/
theorem C6_get_shard_for_key_deterministic (m1 m2 : ShardManager) (table key : String)
    (hs : m1.strategy = m2.strategy) (hc : m1.shard_count = m2.shard_count) :
    m1.get_shard_for_key table key = m2.get_shard_for_key table key := by
  simp only [ShardManager.get_shard_for_key, ShardManager.hash_key,
    ShardManager.calculate_shard_id, ShardManager.consistent_hash, hs, hc]

/-- C6 witness: a freshly built 4-shard hash manager and the same manager
after a shard migration agree on strategy and shard count, hence on
`get_shard_for_key "users" "user:42"`. -/
theorem C6_witness :
    (ShardManager.new ShardingStrategy.Hash 4 2).strategy
        = ((ShardManager.new ShardingStrategy.Hash 4 2).migrate_shard 0 ["n9"]).strategy ∧
    (ShardManager.new ShardingStrategy.Hash 4 2).shard_count
        = ((ShardManager.new ShardingStrategy.Hash 4 2).migrate_shard 0 ["n9"]).shard_count ∧
    (ShardManager.new ShardingStrategy.Hash 4 2).get_shard_for_key "users" "user:42"
        = ((ShardManager.new ShardingStrategy.Hash 4 2).migrate_shard 0
            ["n9"]).get_shard_for_key "users" "user:42" :=
  ⟨rfl, rfl, C6_get_shard_for_key_deterministic _ _ "users" "user:42" rfl rfl⟩

/-- C7 counterexample: with 2 shards and a single node, both shards are
assigned the identical replica set `["a"]` (shards whose ids are congruent
modulo the node count always coincide), refuting "no two distinct shards
are assigned an identical replica set". -/
theorem C7_counterexample_identical_replica_sets :
    ((ShardManager.new ShardingStrategy.Directory 2 1).assign_nodes_to_shards ["a"]).map
        (fun m' => ((alistLookup m'.shards 0).map ShardInfo.nodes,
                    (alistLookup m'.shards 1).map ShardInfo.nodes))
      = some (some ["a"], some ["a"]) := by
  rfl

/-- C7 amended: after `assign_nodes_to_shards(nodes)` with a non-empty
node list, every shard is assigned exactly `replication_factor` nodes
round-robin with the shard id as offset (`nodes[(shard_id + i) mod
nodes.len()]`, the `u32` sum wrapping), and each shard's leader is the
first node of its replica set; distinct shards may however receive an
identical replica set (exactly when their ids are congruent modulo the
node count), so the uniqueness clause is dropped. -/
theorem C7_amended_round_robin_assignment (m : ShardManager) (nodes : List String)
    (hn : nodes ≠ []) :
    ∃ m', m.assign_nodes_to_shards nodes = some m' ∧
      ∀ sid s0, alistLookup m.shards sid = some s0 →
        ∃ s, alistLookup m'.shards sid = some s ∧
          s.nodes.length = m.replication_factor ∧
          (∀ i, i < m.replication_factor →
            s.nodes.get? i = some (nodes.getD (((sid + i) % 2 ^ 32) % nodes.length) "")) ∧
          s.leader = s.nodes.head? := by
  have hne : nodes.isEmpty = false := isEmpty_false_of_ne_nil hn
  refine ⟨{ m with shards := alistMapWithKey (fun shard_id shard =>
      let assigned := assignReplicaSet m.replication_factor nodes shard_id
      { shard with nodes := assigned, leader := assigned.head? }) m.shards }, ?_, ?_⟩
  · simp [ShardManager.assign_nodes_to_shards, hne]
  intro sid s0 h0
  dsimp only
  rw [alistLookup_mapWithKey, h0, Option.map_some']
  refine ⟨_, rfl, by simp [assignReplicaSet], ?_, rfl⟩
  intro i hi
  show ((List.range m.replication_factor).map fun j =>
      nodes.getD (((sid + j) % 2 ^ 32) % nodes.length) "").get? i = _
  rw [List.get?_map, List.get?_range hi]
  rfl

/-- C7 witness: the amended round-robin property instantiated on a 2-shard
hash manager with three nodes. -/
theorem C7_witness :
    (["n1", "n2", "n3"] : List String) ≠ [] ∧
    (∃ m', (ShardManager.new ShardingStrategy.Hash 2 2).assign_nodes_to_shards
        ["n1", "n2", "n3"] = some m' ∧
      ∀ sid s0, alistLookup (ShardManager.new ShardingStrategy.Hash 2 2).shards sid
          = some s0 →
        ∃ s, alistLookup m'.shards sid = some s ∧
          s.nodes.length = (ShardManager.new ShardingStrategy.Hash 2 2).replication_factor ∧
          (∀ i, i < (ShardManager.new ShardingStrategy.Hash 2 2).replication_factor →
            s.nodes.get? i = some ((["n1", "n2", "n3"] : List String).getD
              (((sid + i) % 2 ^ 32) % (["n1", "n2", "n3"] : List String).length) "")) ∧
          s.leader = s.nodes.head?) :=
  ⟨by decide, C7_amended_round_robin_assignment _ _ (by decide)⟩

/-- C8: migrating an existing shard replaces only that shard's nodes,
leader and status — its id, ranges and counters are untouched; the status
passes through `Migrating` (the mid-migration state) and is `Active` when
the call returns; the leader is the first new node — while every other
shard and the manager's remaining fields are left entirely unchanged. -/
theorem C8_migrate_shard_frame (m : ShardManager) (sid : Nat) (new_nodes : List String)
    (s : ShardInfo) (h : alistLookup m.shards sid = some s) :
    (∃ s', alistLookup (m.migrate_shard sid new_nodes).shards sid = some s' ∧
      s'.id = s.id ∧ s'.range_start = s.range_start ∧ s'.range_end = s.range_end ∧
      s'.size_bytes = s.size_bytes ∧ s'.record_count = s.record_count ∧
      s'.status = ShardStatus.Active ∧ s'.nodes = new_nodes ∧
      s'.leader = new_nodes.head?) ∧
    (∃ sm, alistLookup (m.migrate_shard_mid sid new_nodes).shards sid = some sm ∧
      sm.status = ShardStatus.Migrating ∧ sm.nodes = new_nodes) ∧
    (∀ sid', sid' ≠ sid →
      alistLookup (m.migrate_shard sid new_nodes).shards sid' = alistLookup m.shards sid') ∧
    (m.migrate_shard sid new_nodes).strategy = m.strategy ∧
    (m.migrate_shard sid new_nodes).shard_count = m.shard_count ∧
    (m.migrate_shard sid new_nodes).replication_factor = m.replication_factor := by
  have hmig : (m.migrate_shard sid new_nodes).shards
      = alistUpdate m.shards sid
        { s with status := ShardStatus.Active, nodes := new_nodes,
                 leader := new_nodes.head? } := by
    simp only [ShardManager.migrate_shard, h]
  have hmid : (m.migrate_shard_mid sid new_nodes).shards
      = alistUpdate m.shards sid
        { s with status := ShardStatus.Migrating, nodes := new_nodes,
                 leader := new_nodes.head? } := by
    simp only [ShardManager.migrate_shard_mid, h]
  refine ⟨?_, ?_, ?_, ?_, ?_, ?_⟩
  · exact ⟨{ s with status := ShardStatus.Active, nodes := new_nodes, leader := new_nodes.head? },
      by rw [hmig]; exact alistLookup_update_self _ _ _ _ h,
      rfl, rfl, rfl, rfl, rfl, rfl, rfl, rfl⟩
  · exact ⟨{ s with status := ShardStatus.Migrating, nodes := new_nodes, leader := new_nodes.head? },
      by rw [hmid]; exact alistLookup_update_self _ _ _ _ h,
      rfl, rfl⟩
  · intro sid' hne
    rw [hmig]
    exact alistLookup_update_ne _ _ _ _ hne
  · simp only [ShardManager.migrate_shard, h]
  · simp only [ShardManager.migrate_shard, h]
  · simp only [ShardManager.migrate_shard, h]

/-- C8 witness: migrating shard 0 of a 2-shard directory manager to
`["n1", "n2"]`. -/
theorem C8_witness :
    alistLookup (ShardManager.new ShardingStrategy.Directory 2 1).shards 0
        = some { id := 0, range_start := "shard_0", range_end := "shard_1", nodes := [],
                 leader := none, status := ShardStatus.Active, size_bytes := 0,
                 record_count := 0 } ∧
    (∃ s', alistLookup (((ShardManager.new ShardingStrategy.Directory 2 1)).migrate_shard 0
          ["n1", "n2"]).shards 0 = some s' ∧
      s'.status = ShardStatus.Active ∧ s'.nodes = ["n1", "n2"] ∧
      s'.leader = (["n1", "n2"] : List String).head?) ∧
    (∃ sm, alistLookup (((ShardManager.new ShardingStrategy.Directory 2 1)).migrate_shard_mid 0
          ["n1", "n2"]).shards 0 = some sm ∧ sm.status = ShardStatus.Migrating) ∧
    alistLookup (((ShardManager.new ShardingStrategy.Directory 2 1)).migrate_shard 0
          ["n1", "n2"]).shards 1
      = alistLookup (ShardManager.new ShardingStrategy.Directory 2 1).shards 1 := by
  have h := C8_migrate_shard_frame (ShardManager.new ShardingStrategy.Directory 2 1) 0
    ["n1", "n2"]
    { id := 0, range_start := "shard_0", range_end := "shard_1", nodes := [],
      leader := none, status := ShardStatus.Active, size_bytes := 0, record_count := 0 }
    (by rfl)
  obtain ⟨⟨s', hs', _, _, _, _, _, hst, hn, hl⟩, ⟨sm, hsm, hsmst, _⟩, hframe, _⟩ := h
  exact ⟨by rfl, ⟨s', hs', hst, hn, hl⟩, ⟨sm, hsm, hsmst⟩, hframe 1 (by decide)⟩

/-- C10: with `shard_count ≥ 1` the shard-id computation is total — the
modulo never divides by zero — and `get_shard_for_key` returns a
`ShardKey` whose `shard_id` is strictly below `shard_count` and names a
shard present in the manager's freshly initialized shard map; the same
holds for a started `ClusterManager` (whose `usize` count fits in `u32`).
The precondition is necessary: with `shard_count = 0` the computation is
modelled as `none` (the Rust `%` panics). -/
theorem C10_shard_id_total_and_in_range (strategy : ShardingStrategy) (c rf : Nat)
    (table key : String) (cfg : Cluster.ClusterConfig) (ckey : String)
    (hc : 1 ≤ c) (hcfg : 1 ≤ cfg.shard_count) (hcfg32 : cfg.shard_count < 2 ^ 32) :
    (∃ sk, (ShardManager.new strategy c rf).get_shard_for_key table key = some sk ∧
      sk.shard_id < c ∧
      (alistLookup (ShardManager.new strategy c rf).shards sk.shard_id).isSome) ∧
    (∀ m : ShardManager, m.shard_count = 0 → ∀ h, m.calculate_shard_id h = none) ∧
    (∃ cm, (Cluster.ClusterManager.new cfg).init_shards = some cm ∧
      ∃ sh, cm.get_shard_for_key ckey = some (some sh)) := by
  have hc0 : c ≠ 0 := by omega
  refine ⟨?_, ?_, ?_⟩
  · have hcalc : (ShardManager.new strategy c rf).calculate_shard_id
        ((ShardManager.new strategy c rf).hash_key key) = some (defaultHashStr key % c) := by
      cases strategy <;>
        simp [ShardManager.calculate_shard_id, ShardManager.consistent_hash,
          ShardManager.new, ShardManager.init_shards, ShardManager.hash_key, hc0]
    refine ⟨{ table := table, key := key,
              hash := (ShardManager.new strategy c rf).hash_key key,
              shard_id := defaultHashStr key % c }, ?_, ?_, ?_⟩
    · show ((ShardManager.new strategy c rf).calculate_shard_id
          ((ShardManager.new strategy c rf).hash_key key)).map _ = _
      rw [hcalc]
      rfl
    · exact Nat.mod_lt _ (by omega)
    · show (alistLookup ((List.range c).map fun i =>
          (i, ({ id := i,
                 range_start := ShardManager.calculate_range_start
                   { strategy := strategy, shards := [], shard_count := c,
                     replication_factor := rf } i,
                 range_end := ShardManager.calculate_range_end
                   { strategy := strategy, shards := [], shard_count := c,
                     replication_factor := rf } i,
                 nodes := [], leader := none, status := ShardStatus.Active,
                 size_bytes := 0, record_count := 0 } : ShardInfo)))
          (defaultHashStr key % c)).isSome
      rw [alistLookup_range_map, if_pos (Nat.mod_lt _ (show 0 < c by omega))]
      rfl
  · intro m hm h
    cases hs : m.strategy <;>
      simp [ShardManager.calculate_shard_id, ShardManager.consistent_hash, hs, hm]
  · have hmod : cfg.shard_count % 2 ^ 32 = cfg.shard_count := Nat.mod_eq_of_lt hcfg32
    have hcond : ¬ (cfg.shard_count ≠ 0 ∧ cfg.shard_count % 2 ^ 32 = 0) := by
      rw [hmod]; omega
    refine ⟨{ Cluster.ClusterManager.new cfg with
        shards := (List.range cfg.shard_count).map fun i =>
          (i % 2 ^ 32,
           ({ id := i % 2 ^ 32,
              range_start := formatHexPad 8 (i * ((2 ^ 32 - 1) / (cfg.shard_count % 2 ^ 32))),
              range_end := formatHexPad 8 ((i + 1) * ((2 ^ 32 - 1) / (cfg.shard_count % 2 ^ 32))),
              replicas := [], leader := none,
              status := Cluster.ShardStatus.Active } : Cluster.Shard)) }, ?_, ?_⟩
    · show (if cfg.shard_count ≠ 0 ∧ cfg.shard_count % 2 ^ 32 = 0 then none else some _)
          = some _
      rw [if_neg hcond]
      rfl
    · have hmap : ((List.range cfg.shard_count).map fun i =>
          ((i % 2 ^ 32 : Nat),
           ({ id := i % 2 ^ 32,
              range_start := formatHexPad 8 (i * ((2 ^ 32 - 1) / (cfg.shard_count % 2 ^ 32))),
              range_end := formatHexPad 8 ((i + 1) * ((2 ^ 32 - 1) / (cfg.shard_count % 2 ^ 32))),
              replicas := [], leader := none,
              status := Cluster.ShardStatus.Active } : Cluster.Shard)))
          = (List.range cfg.shard_count).map fun i =>
          (i, ({ id := i % 2 ^ 32,
                 range_start := formatHexPad 8 (i * ((2 ^ 32 - 1) / (cfg.shard_count % 2 ^ 32))),
                 range_end := formatHexPad 8 ((i + 1) * ((2 ^ 32 - 1) / (cfg.shard_count % 2 ^ 32))),
                 replicas := [], leader := none,
                 status := Cluster.ShardStatus.Active } : Cluster.Shard)) := by
        apply List.map_congr_left
        intro i hi
        have hilt : i < cfg.shard_count := List.mem_range.mp hi
        have hmodi : i % 2 ^ 32 = i := Nat.mod_eq_of_lt (by omega)
        rw [hmodi]
      refine ⟨{ id := (defaultHashStr ckey % 2 ^ 32 % (cfg.shard_count % 2 ^ 32)) % 2 ^ 32,
                range_start := formatHexPad 8
                  ((defaultHashStr ckey % 2 ^ 32 % (cfg.shard_count % 2 ^ 32))
                    * ((2 ^ 32 - 1) / (cfg.shard_count % 2 ^ 32))),
                range_end := formatHexPad 8
                  (((defaultHashStr ckey % 2 ^ 32 % (cfg.shard_count % 2 ^ 32)) + 1)
                    * ((2 ^ 32 - 1) / (cfg.shard_count % 2 ^ 32))),
                replicas := [], leader := none,
                status := Cluster.ShardStatus.Active }, ?_⟩
      show (if cfg.shard_count % 2 ^ 32 = 0 then none
          else some (alistLookup _ (defaultHashStr ckey % 2 ^ 32 % (cfg.shard_count % 2 ^ 32))))
        = some (some _)
      rw [if_neg (by omega), hmap, alistLookup_range_map, if_pos]
      rw [hmod]
      exact Nat.mod_lt _ (by omega)

/-- C10 witness: a 4-shard hash manager and a 4-shard cluster
configuration, both with positive shard counts. -/
theorem C10_witness :
    (1 ≤ 4 ∧ (4 : Nat) < 2 ^ 32) ∧
    (∃ sk, (ShardManager.new ShardingStrategy.Hash 4 3).get_shard_for_key "users" "user:42"
        = some sk ∧ sk.shard_id < 4 ∧
      (alistLookup (ShardManager.new ShardingStrategy.Hash 4 3).shards sk.shard_id).isSome) ∧
    (∃ cm, (Cluster.ClusterManager.new
        { node_id := "n1", bind_address := "127.0.0.1:7000", peers := [],
          replication_factor := 3, shard_count := 4, enable_auto_discovery := false,
          heartbeat_interval := 100, election_timeout := 1000 }).init_shards = some cm ∧
      ∃ sh, cm.get_shard_for_key "user:42" = some (some sh)) := by
  have h := C10_shard_id_total_and_in_range ShardingStrategy.Hash 4 3 "users" "user:42"
    { node_id := "n1", bind_address := "127.0.0.1:7000", peers := [],
      replication_factor := 3, shard_count := 4, enable_auto_discovery := false,
      heartbeat_interval := 100, election_timeout := 1000 } "user:42"
    (by decide) (by decide) (by decide)
  exact ⟨⟨by decide, by decide⟩, h.1, h.2.2⟩

/-- C2: on a log whose entries are numbered consecutively from 1 (here
indices 1 and 2) with `commit_index = 2` and `last_applied = 0`,
`apply_committed_entries` passes only the entry with index 2 to
`apply_entry` — the committed entry with index 1 is skipped, because
`get_entry` indexes the log vector by position while the apply cursor is
1-based — even though afterwards `last_applied = commit_index`. This
contradicts the claim that exactly the entries with index in
`(last_applied, commit_index]` are applied. -/
theorem C2_apply_skips_first_committed_entry :
    twoCommitted.apply_committed_entries.2 = [entryTwo] ∧
    twoCommitted.apply_committed_entries.1.last_applied = 2 ∧
    twoCommitted.apply_committed_entries.1.commit_index = 2 ∧
    entryOne.index = 1 ∧ entryTwo.index = 2 ∧
    twoCommitted.apply_committed_entries.2 ≠ [entryOne, entryTwo] := by
  refine ⟨rfl, rfl, rfl, rfl, rfl, ?_⟩
  intro h
  have hlen := congrArg List.length h
  rw [show twoCommitted.apply_committed_entries.2 = [entryTwo] from rfl] at hlen
  simp at hlen

/-- C3 counterexample: on a fresh manager with an empty log,
`commit_to_index 5` advances `commit_index` to 5, which exceeds the last
appended log index (0) — `commit_to_index` never checks the log, so the
claimed invariant `commit_index ≤ last appended log index` fails. -/
theorem C3_counterexample_commit_beyond_log :
    (ReplicationManager.new.commit_to_index 5).commit_index = 5 ∧
    (ReplicationManager.new.commit_to_index 5).get_last_log_index = 0 ∧
    ¬ ((ReplicationManager.new.commit_to_index 5).commit_index ≤
        (ReplicationManager.new.commit_to_index 5).get_last_log_index) := by
  refine ⟨rfl, rfl, ?_⟩
  decide

/-- C3 amended: every public `ReplicationManager` operation preserves
`last_applied ≤ commit_index` (and `apply_committed_entries` ends with
`last_applied = commit_index`), but nothing bounds `commit_index` by the
last appended log index: `commit_to_index` accepts any larger index. -/
theorem C3_amended_last_applied_le_commit (m : ReplicationManager) (e : LogEntry)
    (i : Nat) (f : String) (s : Bool) (mi : Nat)
    (h : m.last_applied ≤ m.commit_index) :
    (m.append_entry e).last_applied ≤ (m.append_entry e).commit_index ∧
    (m.commit_to_index i).last_applied ≤ (m.commit_to_index i).commit_index ∧
    m.apply_committed_entries.1.last_applied = m.apply_committed_entries.1.commit_index ∧
    (m.handle_append_entries_response f s mi).last_applied ≤
      (m.handle_append_entries_response f s mi).commit_index := by
  refine ⟨h, ?_, ?_, ?_⟩
  · simp only [ReplicationManager.commit_to_index]
    split
    · next hlt => exact le_trans h (le_of_lt hlt)
    · exact h
  · obtain ⟨h1, h2, _⟩ :=
      apply_go_fields (m.commit_index - m.last_applied) m (by omega)
    show (ReplicationManager.apply_go (m.commit_index - m.last_applied) m).1.last_applied
        = (ReplicationManager.apply_go (m.commit_index - m.last_applied) m).1.commit_index
    rw [h1, h2]
    omega
  · cases s with
    | true =>
        have heq : m.handle_append_entries_response f true mi =
            ReplicationManager.update_commit_index
              { m with match_index := alistInsert m.match_index f mi,
                       next_index := alistInsert m.next_index f (mi + 1) } := by
          simp [ReplicationManager.handle_append_entries_response]
        rw [heq]
        obtain ⟨h1, h2, _⟩ := update_commit_index_fields
          { m with match_index := alistInsert m.match_index f mi,
                   next_index := alistInsert m.next_index f (mi + 1) }
        rw [h1]
        exact le_trans h h2
    | false =>
        have heq : m.handle_append_entries_response f false mi =
            (match alistLookup m.next_index f with
             | some current_next =>
                 if 0 < current_next then
                   { m with next_index := alistInsert m.next_index f (current_next - 1) }
                 else m
             | none => m) := by
          simp [ReplicationManager.handle_append_entries_response]
        rw [heq]
        cases hl : alistLookup m.next_index f with
        | some n =>
            simp only [hl]
            by_cases hn : 0 < n
            · simpa [hn] using h
            · simpa [hn] using h
        | none => simpa [hl] using h

/-- C3 witness: the amended invariant instantiated on a concrete manager
(`commit_to_index 3` applied to a fresh manager, where
`last_applied = 0 ≤ commit_index = 3`). -/
theorem C3_witness :
    (ReplicationManager.new.commit_to_index 3).last_applied ≤
      (ReplicationManager.new.commit_to_index 3).commit_index ∧
    ((ReplicationManager.new.commit_to_index 3).append_entry
        (entryWithIndex 1)).last_applied ≤
      ((ReplicationManager.new.commit_to_index 3).append_entry
        (entryWithIndex 1)).commit_index ∧
    (ReplicationManager.new.commit_to_index 3).apply_committed_entries.1.last_applied =
      (ReplicationManager.new.commit_to_index 3).apply_committed_entries.1.commit_index := by
  have h := C3_amended_last_applied_le_commit (ReplicationManager.new.commit_to_index 3)
    (entryWithIndex 1) 7 "f1" true 4 (by decide)
  exact ⟨by decide, h.1, h.2.2.1⟩

/-- C4 counterexample: `delete_row` returns `Ok(())` both when the record
existed (in the engine that just stored it) and when it did not (in the
fresh engine) — its return value is the same in both cases, so it cannot
be `Ok(true)` iff a record existed and `Ok(false)` otherwise. -/
theorem C4_counterexample_delete_returns_unit :
    ((StorageEngine.new "/data").put_row "users" "k1" rowOne).1.get_row "users" "k1"
        = Except.ok (some rowOne) ∧
    (StorageEngine.new "/data").get_row "users" "k1" = Except.ok none ∧
    (((StorageEngine.new "/data").put_row "users" "k1" rowOne).1.delete_row "users" "k1").2
        = ((StorageEngine.new "/data").delete_row "users" "k1").2 ∧
    (((StorageEngine.new "/data").put_row "users" "k1" rowOne).1.delete_row "users" "k1").2
        = Except.ok () := by
  exact ⟨rfl, rfl, rfl, rfl⟩

/-- C4 amended: `delete_row` always returns `Ok(())` — the return value
does not indicate whether a record existed — and in both cases the record
with that identity is absent afterwards, all other keys being untouched. -/
theorem C4_amended_delete_removes_and_returns_unit (e : StorageEngine) (table key : String) :
    (e.delete_row table key).2 = Except.ok () ∧
    (e.delete_row table key).1.data (table ++ ":" ++ key) = none ∧
    ∀ k, k ≠ table ++ ":" ++ key → (e.delete_row table key).1.data k = e.data k := by
  refine ⟨rfl, by simp [StorageEngine.delete_row], fun k hk => ?_⟩
  simp [StorageEngine.delete_row, hk]

/-- C5 counterexample: the round-trip fails as stated. `serde_json`
serializes the quiet-NaN `f32` in `rowNan` as `null`, so `put_row`
succeeds but the following `get_row` of the same identity returns a
`Serialization` error instead of `Ok(Some payload)`. -/
theorem C5_counterexample_nan_round_trip_fails :
    rowFinite rowNan = false ∧
    ((StorageEngine.new "/data").put_row "t" "k" rowNan).2 = Except.ok () ∧
    ((StorageEngine.new "/data").put_row "t" "k" rowNan).1.get_row "t" "k"
        = Except.error (QubeError.Serialization "Failed to deserialize row") := by
  exact ⟨rfl, rfl, rfl⟩

/-- C5 amended: a successful `put` followed by a `get` of the same
identity returns `Some` of a payload equal to what was stored — for
vectors unconditionally, with exact equality of the `f32` bit patterns,
which `bincode` preserves bit-for-bit (`put_vector`/`get_vector`); for
rows (`put_row`/`get_row`) and graph-edge payloads provided every
`Float32`/`Float64`/`Vector` value in the row is finite, since
`serde_json` writes NaN and infinities as `null`, which fails to
deserialize (the stored edge payload sits under the edge key as the
serialized row, which decodes back to exactly the stored payload; the
source has no edge getter). -/
theorem C5_amended_round_trip_finite (e : StorageEngine)
    (table key collection id graph a b : String) (r p : Row) (v : List Nat)
    (hr : rowFinite r = true) (hp : rowFinite p = true) :
    (e.put_row table key r).1.get_row table key = Except.ok (some r) ∧
    (e.put_vector collection id v).1.get_vector collection id = Except.ok (some v) ∧
    (e.put_graph_edge graph a b p).1.data ("graph:" ++ graph ++ ":edge:" ++ a ++ ":" ++ b)
        = some (StoredBytes.jsonRow (serializeRow p)) ∧
    deserializeRow (serializeRow p) = some p := by
  refine ⟨?_, ?_, ?_, deserializeRow_serializeRow p hp⟩
  · have hds := deserializeRow_serializeRow r hr
    simp [StorageEngine.put_row, StorageEngine.get_row, hds]
  · simp [StorageEngine.put_vector, StorageEngine.get_vector]
  · simp [StorageEngine.put_graph_edge]

/-- C5 witness: the amended round-trip on a finite-float row, a vector of
bit patterns and a graph-edge payload. -/
theorem C5_witness :
    rowFinite rowFin = true ∧
    ((StorageEngine.new "/w").put_row "users" "k1" rowFin).1.get_row "users" "k1"
        = Except.ok (some rowFin) ∧
    ((StorageEngine.new "/w").put_vector "emb" "v1" [1, 2, 3]).1.get_vector "emb" "v1"
        = Except.ok (some [1, 2, 3]) ∧
    ((StorageEngine.new "/w").put_graph_edge "g" "a" "b" rowFin).1.data
        ("graph:" ++ "g" ++ ":edge:" ++ "a" ++ ":" ++ "b")
        = some (StoredBytes.jsonRow (serializeRow rowFin)) ∧
    deserializeRow (serializeRow rowFin) = some rowFin := by
  have h := C5_amended_round_trip_finite (StorageEngine.new "/w") "users" "k1" "emb" "v1"
    "g" "a" "b" rowFin rowFin [1, 2, 3] (by decide) (by decide)
  exact ⟨by decide, h.1, h.2.1, h.2.2.1, h.2.2.2⟩

/-- C9: inserting a vector whose length differs from the index's declared
dimension count fails with the dimension-mismatch `Index` error and leaves
the index unchanged; a vector of the declared length is accepted with
`Ok`; the same check guards `search`'s query vector. -/
theorem C9_vector_dimension_check (idx : VectorIndex) (id : String) (v w q : List Nat)
    (k : Nat) (hv : v.length ≠ idx.dimensions) (hw : w.length = idx.dimensions)
    (hq : q.length ≠ idx.dimensions) :
    idx.insert id v =
      (idx, Except.error (QubeError.Index (vectorDimensionMismatchMsg idx.dimensions v.length))) ∧
    idx.insert id w = (idx, Except.ok ()) ∧
    idx.search q k =
      Except.error (QubeError.Index (queryDimensionMismatchMsg idx.dimensions q.length)) ∧
    idx.search w k = Except.ok [] := by
  refine ⟨?_, ?_, ?_, ?_⟩ <;>
    simp [VectorIndex.insert, VectorIndex.search, hv, hw, hq]

/-- C9 witness: the dimension check on a concrete 2-dimensional index with
a 3-dimensional vector, a 2-dimensional vector and a 1-dimensional query. -/
theorem C9_witness :
    ([1, 2, 3] : List Nat).length ≠ (VectorIndex.new "emb" 2).dimensions ∧
    ([4, 5] : List Nat).length = (VectorIndex.new "emb" 2).dimensions ∧
    ([9] : List Nat).length ≠ (VectorIndex.new "emb" 2).dimensions ∧
    (VectorIndex.new "emb" 2).insert "a" [1, 2, 3] =
      (VectorIndex.new "emb" 2,
       Except.error (QubeError.Index
         (vectorDimensionMismatchMsg (VectorIndex.new "emb" 2).dimensions
           ([1, 2, 3] : List Nat).length))) ∧
    (VectorIndex.new "emb" 2).insert "a" [4, 5] = (VectorIndex.new "emb" 2, Except.ok ()) ∧
    (VectorIndex.new "emb" 2).search [9] 1 =
      Except.error (QubeError.Index
        (queryDimensionMismatchMsg (VectorIndex.new "emb" 2).dimensions
          ([9] : List Nat).length)) ∧
    (VectorIndex.new "emb" 2).search [4, 5] 1 = Except.ok [] := by
  have h := C9_vector_dimension_check (VectorIndex.new "emb" 2) "a" [1, 2, 3] [4, 5] [9] 1
    (by decide) (by decide) (by decide)
  exact ⟨by decide, by decide, by decide, h.1, h.2.1, h.2.2.1, h.2.2.2⟩

end QubeDB
